import Mathlib

/-!
# Shallow embedding of the PeopleStore CRUD service (src/main.py)

The Python module keeps two pieces of process-wide state: `_people`, an
ordered list of `Person` pydantic models, and `_free_ids`, a set of integer
ids released by deletions.  We embed that state as the structure `Store`
and each HTTP handler as a pure function threading the store explicitly.
Python string helpers (`str.strip`, `str.isalpha`, `str.lower`) are
embedded over the character list of a `String`; alphabetic / whitespace
classification uses Lean's `Char.isAlpha` / `Char.isWhitespace` as the
(ASCII) model of Python's.  Email syntax is checked by the third-party
`EmailStr` validator, which is not part of this repository; every
definition that needs it is parametrised by an abstract checker
`ev : String → Bool`.
-/

namespace RestApi

/-- Embedding of Python `str.strip()`: drop leading and trailing whitespace. -/
def py_strip (s : String) : String :=
  ⟨((s.data.dropWhile Char.isWhitespace).reverse.dropWhile Char.isWhitespace).reverse⟩

/-- Embedding of Python `str.isalpha()`: non-empty and every character alphabetic. -/
def py_isalpha (s : String) : Bool :=
  !s.data.isEmpty && s.data.all Char.isAlpha

/-- Embedding of Python `str.lower()`. -/
def py_lower (s : String) : String :=
  ⟨s.data.map Char.toLower⟩

/-- The two kinds of errors raised by the handlers: `HTTPException(422, …)` /
pydantic validation failures, and `HTTPException(404, …)`. -/
inductive ApiError where
  | invalid (detail : String)
  | notFound (detail : String)
deriving DecidableEq

/-- `validate_name` (src/main.py:17): strip spaces, then require `isalpha`;
on failure raise 422, on success return the *stripped* name. -/
def validate_name (name : String) : Except ApiError String :=
  if py_isalpha (py_strip name) then .ok (py_strip name)
  else .error (.invalid "Name must contain only alphabetic characters")

/-- The `Person` pydantic model (src/main.py:43): id, validated names,
optional email, optional favorite anime. -/
structure Person where
  id : Nat
  firstname : String
  lastname : String
  email : Option String
  favorite_anime : Option String := none
deriving DecidableEq

/-- The process-wide state: `_people` (insertion-ordered list) and
`_free_ids` (a set of ids released by deletions). -/
structure Store where
  people : List Person
  free_ids : Finset Nat
deriving DecidableEq

/-- First seed person (src/main.py:64). -/
def john : Person :=
  { id := 0, firstname := "John", lastname := "Doe", email := some "matt@aresayoo.com" }

/-- Second seed person (src/main.py:65). -/
def matt : Person := { id := 1, firstname := "Matt", lastname := "A", email := none }

/-- Third seed person (src/main.py:66). -/
def joe : Person := { id := 2, firstname := "Joe", lastname := "Blow", email := none }

/-- The seed state `_people` / `_free_ids` (src/main.py:63): three people
with ids 0, 1, 2 and an empty free-id set. -/
def seed_store : Store := { people := [john, matt, joe], free_ids := ∅ }

/-- `get_next_id` (src/main.py:71): the minimum of `_free_ids` when that set
is non-empty, else `max(person.id for person in _people) + 1` when people
exist, else 0.  It reads the state and mutates nothing. -/
def get_next_id (s : Store) : Nat :=
  if h : s.free_ids.Nonempty then s.free_ids.min' h
  else if hp : s.people ≠ [] then
    ((s.people.map Person.id).maximum_of_length_pos (by
      simpa using List.length_pos.mpr hp)) + 1
  else 0

/-- Construction of a `Person` pydantic model: fields are validated in
declaration order; `validate_name` runs on both names (raising 422 first),
`EmailStr` (abstracted as `ev`) on a non-`None` email; `favorite_anime`
is unvalidated. -/
def mk_person (ev : String → Bool) (id : Nat) (firstname lastname : String)
    (email favorite_anime : Option String) : Except ApiError Person :=
  match validate_name firstname with
  | .error e => .error e
  | .ok fn =>
    match validate_name lastname with
    | .error e => .error e
    | .ok ln =>
      match email with
      | none => .ok { id := id, firstname := fn, lastname := ln, email := none
                    , favorite_anime := favorite_anime }
      | some e =>
          if ev e then
            .ok { id := id, firstname := fn, lastname := ln, email := some e
                , favorite_anime := favorite_anime }
          else .error (.invalid "value is not a valid email address")

/-- `create_person` (src/main.py:161): build a `Person` with `get_next_id()`
as id and append it to `_people`.  On a validation failure the append never
runs and the state is untouched; note the code never removes the allocated
id from `_free_ids`. -/
def create_person (ev : String → Bool) (firstname lastname : String)
    (email favorite_anime : Option String) (s : Store) :
    Except ApiError Person × Store :=
  match mk_person ev (get_next_id s) firstname lastname email favorite_anime with
  | .error e => (.error e, s)
  | .ok p => (.ok p, { s with people := s.people ++ [p] })

/-- `get_person` (src/main.py:142): linear scan of `_people`, return the
first person whose id matches, else 404.  Reads only. -/
def get_person (person_id : Nat) (s : Store) : Except ApiError Person :=
  match s.people.find? (fun p => p.id == person_id) with
  | some p => .ok p
  | none => .error (.notFound "Person not found")

/-- Python truthiness of an optional string argument: `None` and `""` are
falsy, everything else truthy. -/
def truthy : Option String → Bool
  | none => false
  | some s => !s.isEmpty

/-- Predicate of the `favorite_anime` query filter (src/main.py:122):
`getattr(p, "favorite_anime", None) and value.lower() == p.favorite_anime.lower()`. -/
def anime_filter_pred (value : String) (p : Person) : Bool :=
  truthy p.favorite_anime &&
    py_lower value == py_lower (p.favorite_anime.getD "")

/-- Python truthiness of a person's `email` field. -/
def email_truthy (p : Person) : Bool := truthy p.email

/-- Python truthiness of a person's `favorite_anime` field. -/
def anime_truthy (p : Person) : Bool := truthy p.favorite_anime

/-- `get_people` (src/main.py:96): start from `_people`; if the
`favorite_anime` argument is truthy, keep case-insensitive matches; then
apply `has_email` and `has_favorite_anime` presence filters in turn. -/
def get_people (favorite_anime : Option String) (has_email : Option Bool)
    (has_favorite_anime : Option Bool) (s : Store) : List Person :=
  let people := s.people
  let people :=
    if truthy favorite_anime then
      people.filter (anime_filter_pred (favorite_anime.getD ""))
    else people
  let people :=
    match has_email with
    | some true => people.filter (fun p => email_truthy p)
    | some false => people.filter (fun p => !email_truthy p)
    | none => people
  let people :=
    match has_favorite_anime with
    | some true => people.filter (fun p => anime_truthy p)
    | some false => people.filter (fun p => !anime_truthy p)
    | none => people
  people

/-- One truthy-guarded, validated field assignment of `update_person`
(`person.firstname = firstname` under `validate_assignment`): skipped when
the argument is falsy; otherwise the validator runs and either the field is
overwritten or the exception leaves the person as it was. -/
def assign_name (v : Option String) (set : String → Person → Person)
    (p : Person) : Person × Option ApiError :=
  if truthy v then
    match validate_name (v.getD "") with
    | .ok n => (set n p, none)
    | .error e => (p, some e)
  else (p, none)

/-- The body of `update_person`'s match arm (src/main.py:217): the four
truthy-guarded assignments in source order, stopping at the first
exception; the person keeps every assignment made before the failure. -/
def apply_updates (ev : String → Bool)
    (firstname lastname email favorite_anime : Option String)
    (p : Person) : Person × Option ApiError :=
  match assign_name firstname (fun n q => { q with firstname := n }) p with
  | (p, some e) => (p, some e)
  | (p, none) =>
    match assign_name lastname (fun n q => { q with lastname := n }) p with
    | (p, some e) => (p, some e)
    | (p, none) =>
      if truthy email then
        if ev (email.getD "") then
          (if truthy favorite_anime
             then { p with email := email, favorite_anime := favorite_anime }
             else { p with email := email }, none)
        else (p, some (.invalid "value is not a valid email address"))
      else
        (if truthy favorite_anime
           then { p with favorite_anime := favorite_anime }
           else p, none)

/-- The scan of `update_person` (src/main.py:215): find the first person
with the given id, mutate it in place via `apply_updates` (the partially
updated person stays in the list even when an assignment raises), 404 when
no id matches. -/
def update_loop (ev : String → Bool)
    (person_id : Nat) (firstname lastname email favorite_anime : Option String) :
    List Person → Option (Except ApiError Person × List Person)
  | [] => none
  | p :: rest =>
    if p.id == person_id then
      match apply_updates ev firstname lastname email favorite_anime p with
      | (p', none) => some (.ok p', p' :: rest)
      | (p', some e) => some (.error e, p' :: rest)
    else
      match update_loop ev person_id firstname lastname email favorite_anime rest with
      | none => none
      | some (res, rest') => some (res, p :: rest')

/-- `update_person` (src/main.py:191): returns the handler's result together
with the state after the call (the state is mutated in place, so a failed
assignment can leave a partially updated person behind). -/
def update_person (ev : String → Bool) (person_id : Nat)
    (firstname lastname email favorite_anime : Option String) (s : Store) :
    Except ApiError Person × Store :=
  match update_loop ev person_id firstname lastname email favorite_anime s.people with
  | none => (.error (.notFound "Person not found"), s)
  | some (res, people') => (res, { s with people := people' })

/-- `delete_person` (src/main.py:230): find the first person with the given
id, `_people.remove(person)` (removes the first list element *equal* to it),
add the id to `_free_ids`, return the person; 404 when no id matches. -/
def delete_person (person_id : Nat) (s : Store) : Except ApiError Person × Store :=
  match s.people.find? (fun p => p.id == person_id) with
  | some p =>
      (.ok p, { people := s.people.erase p, free_ids := insert p.id s.free_ids })
  | none => (.error (.notFound "Person not found"), s)

end RestApi

namespace RestApi

/-! ## Shared concrete scenarios -/

/-- An email checker accepting every string; scenarios below supply no email,
so the abstract `EmailStr` validator never matters there. -/
def evTrue : String → Bool := fun _ => true

/-- The store after `DELETE /api/v1/people/1` on the seed state. -/
def store_del1 : Store := (delete_person 1 seed_store).2

/-- … then `POST` one new person. -/
def store_create1 : Store :=
  (create_person evTrue "Alice" "Smith" none none store_del1).2

/-- … then `POST` a second new person. -/
def store_create2 : Store :=
  (create_person evTrue "Bob" "Jones" none none store_create1).2

/-- The store after deleting all three seed people. -/
def store_del_all : Store :=
  (delete_person 2 (delete_person 1 (delete_person 0 seed_store).2).2).2

/-- C1: the claimed invariant "all live ids pairwise distinct after every
operation" fails on the code: starting from the seed state, deleting id 1 and
then creating twice gives both new people id 1 (the id allocated from the
free set is never removed from it), so the final id list 0, 2, 1, 1 has a
duplicate. -/
theorem C1_duplicate_ids :
    (create_person evTrue "Alice" "Smith" none none store_del1).1.toOption.map Person.id
        = some 1
    ∧ (create_person evTrue "Bob" "Jones" none none store_create1).1.toOption.map Person.id
        = some 1
    ∧ store_create2.people.map Person.id = [0, 2, 1, 1]
    ∧ ¬ (store_create2.people.map Person.id).Nodup :=
  ⟨rfl, rfl, rfl, by decide⟩

/-- C2: `create_person` does not remove the allocated id from the free set:
after deleting id 1 from the seed state, the first create is assigned id 1
as claimed, but the free set still contains 1 afterwards, so the second
create is assigned id 1 again — not id 3 as the claim states. -/
theorem C2_free_id_kept :
    (create_person evTrue "Alice" "Smith" none none store_del1).1.toOption.map Person.id
        = some 1
    ∧ store_create1.free_ids = {1}
    ∧ (create_person evTrue "Bob" "Jones" none none store_create1).1.toOption.map Person.id
        = some 1
    ∧ (create_person evTrue "Bob" "Jones" none none store_create1).1.toOption.map Person.id
        ≠ some 3 :=
  ⟨rfl, by decide, rfl, by decide⟩

/-- C4: `get_next_id` returns the smallest free id when the free set is
non-empty; otherwise an id strictly greater than every live id, namely a
live id plus one (`max + 1`), when people exist; otherwise 0.  It is a pure
function of the store (it takes and returns no state).  After deleting all
seed people, the next created person receives id 0. -/
theorem C4_get_next_id (s : Store) :
    (∀ h : s.free_ids.Nonempty,
        get_next_id s ∈ s.free_ids ∧ ∀ x ∈ s.free_ids, get_next_id s ≤ x)
    ∧ (s.free_ids = ∅ → s.people ≠ [] →
        (∀ p ∈ s.people, p.id < get_next_id s)
        ∧ ∃ p ∈ s.people, get_next_id s = p.id + 1)
    ∧ (s.free_ids = ∅ → s.people = [] → get_next_id s = 0)
    ∧ (create_person evTrue "Ann" "Lee" none none store_del_all).1.toOption.map Person.id
        = some 0 := by
  refine ⟨?_, ?_, ?_, rfl⟩
  · intro h
    unfold get_next_id
    rw [dif_pos h]
    exact ⟨Finset.min'_mem _ h, fun x hx => Finset.min'_le _ x hx⟩
  · intro hfe hne
    have hnon : ¬ s.free_ids.Nonempty := by simp [hfe]
    unfold get_next_id
    rw [dif_neg hnon, dif_pos hne]
    constructor
    · intro p hp
      have hmem : p.id ∈ s.people.map Person.id := List.mem_map_of_mem _ hp
      exact Nat.lt_succ_of_le (List.le_maximum_of_length_pos_of_mem hmem _)
    · have hmem := List.maximum_of_length_pos_mem
        (l := s.people.map Person.id)
        (by simpa using List.length_pos.mpr hne)
      rcases List.mem_map.mp hmem with ⟨p, hp, hid⟩
      exact ⟨p, hp, by rw [hid]⟩
  · intro hfe hpe
    have hnon : ¬ s.free_ids.Nonempty := by simp [hfe]
    unfold get_next_id
    rw [dif_neg hnon, dif_neg (by simp [hpe])]

/-- Witness for C4 at concrete stores: after deleting id 1 from the seed
state the free set is nonempty and `get_next_id` returns 1, a member of the
free set and at most its element 1; and on the seed state itself (empty
free set, three people) it returns 3. -/
theorem C4_witness :
    get_next_id store_del1 ∈ store_del1.free_ids
    ∧ get_next_id store_del1 ≤ 1
    ∧ get_next_id store_del_all ≤ 0 :=
  ⟨((C4_get_next_id store_del1).1 (by decide)).1,
   ((C4_get_next_id store_del1).1 (by decide)).2 1 (by decide),
   ((C4_get_next_id store_del_all).1 (by decide)).2 0 (by decide)⟩

end RestApi

namespace RestApi

/-! ## Helper lemmas about name validation and field assignment -/

theorem validate_name_ok {name out : String} (h : validate_name name = .ok out) :
    out = py_strip name ∧ py_isalpha out = true := by
  unfold validate_name at h
  by_cases hb : py_isalpha (py_strip name) = true
  · rw [if_pos hb] at h
    cases h
    exact ⟨rfl, hb⟩
  · rw [if_neg hb] at h
    cases h

theorem validate_name_error {name : String} {e : ApiError}
    (h : validate_name name = .error e) :
    e = .invalid "Name must contain only alphabetic characters"
    ∧ py_isalpha (py_strip name) = false := by
  unfold validate_name at h
  by_cases hb : py_isalpha (py_strip name) = true
  · rw [if_pos hb] at h
    cases h
  · rw [if_neg hb] at h
    cases h
    exact ⟨rfl, by simpa using hb⟩

theorem assign_name_none {v : Option String} {set : String → Person → Person}
    {p q : Person} (h : assign_name v set p = (q, none)) :
    (truthy v = false ∧ q = p)
    ∨ (∃ n, truthy v = true ∧ validate_name (v.getD "") = .ok n ∧ q = set n p) := by
  unfold assign_name at h
  cases hv : truthy v with
  | false =>
      simp only [hv, Bool.false_eq_true, if_false] at h
      injection h with h1 h2
      exact Or.inl ⟨rfl, h1.symm⟩
  | true =>
      simp only [hv, if_true] at h
      cases hval : validate_name (v.getD "") with
      | ok n =>
          rw [hval] at h
          dsimp only at h
          injection h with h1 h2
          exact Or.inr ⟨n, rfl, rfl, h1.symm⟩
      | error e =>
          rw [hval] at h
          dsimp only at h
          injection h with h1 h2
          exact Option.noConfusion h2

theorem assign_name_some {v : Option String} {set : String → Person → Person}
    {p q : Person} {e : ApiError} (h : assign_name v set p = (q, some e)) :
    q = p ∧ truthy v = true ∧ validate_name (v.getD "") = .error e := by
  unfold assign_name at h
  cases hv : truthy v with
  | false =>
      simp only [hv, Bool.false_eq_true, if_false] at h
      injection h with h1 h2
      exact Option.noConfusion h2
  | true =>
      simp only [hv, if_true] at h
      cases hval : validate_name (v.getD "") with
      | ok n =>
          rw [hval] at h
          dsimp only at h
          injection h with h1 h2
          exact Option.noConfusion h2
      | error e0 =>
          rw [hval] at h
          dsimp only at h
          injection h with h1 h2
          injection h2 with h3
          exact ⟨h1.symm, rfl, congrArg Except.error h3⟩

end RestApi

namespace RestApi

theorem assign_name_fst_id {v : Option String} {set : String → Person → Person}
    (hset : ∀ n q, (set n q).id = q.id) (p : Person) :
    ((assign_name v set p).1).id = p.id := by
  rcases h : assign_name v set p with ⟨q, e⟩
  cases e with
  | none =>
      rcases assign_name_none h with ⟨_, rfl⟩ | ⟨n, _, _, rfl⟩
      · rfl
      · exact hset n p
  | some e => rw [(assign_name_some h).1]

/-- No branch of the in-place update sequence ever writes the `id` field. -/
theorem apply_updates_id (ev : String → Bool) (fn ln em fa : Option String)
    (p : Person) : (apply_updates ev fn ln em fa p).1.id = p.id := by
  unfold apply_updates
  rcases h1 : assign_name fn (fun n q => { q with firstname := n }) p with ⟨p1, e1⟩
  have hid1 : p1.id = p.id := by
    have := @assign_name_fst_id fn (fun n q => { q with firstname := n })
      (fun n q => rfl) p
    rw [h1] at this
    exact this
  cases e1 with
  | some e => exact hid1
  | none =>
    dsimp only
    rcases h2 : assign_name ln (fun n q => { q with lastname := n }) p1 with ⟨p2, e2⟩
    have hid2 : p2.id = p.id := by
      have := @assign_name_fst_id ln (fun n q => { q with lastname := n })
        (fun n q => rfl) p1
      rw [h2] at this
      rw [this, hid1]
    cases e2 with
    | some e => exact hid2
    | none =>
      dsimp only
      cases hem : truthy em with
      | true =>
        rw [if_pos rfl]
        cases hev : ev (em.getD "") with
        | true =>
          rw [if_pos rfl]
          cases hfa : truthy fa with
          | true => rw [if_pos rfl]; exact hid2
          | false => rw [if_neg (by simp)]; exact hid2
        | false => rw [if_neg (by simp)]; exact hid2
      | false =>
        rw [if_neg (by simp)]
        cases hfa : truthy fa with
        | true => rw [if_pos rfl]; exact hid2
        | false => rw [if_neg (by simp)]; exact hid2

end RestApi

namespace RestApi

/-- Successful in-place update: every truthy field holds the validated new
value (names are stored stripped), every falsy field keeps its old value,
and the id is untouched. -/
theorem apply_updates_ok {ev : String → Bool} {fn ln em fa : Option String}
    {p p' : Person} (h : apply_updates ev fn ln em fa p = (p', none)) :
    p'.id = p.id
    ∧ (truthy fn = true → p'.firstname = py_strip (fn.getD ""))
    ∧ (truthy fn = false → p'.firstname = p.firstname)
    ∧ (truthy ln = true → p'.lastname = py_strip (ln.getD ""))
    ∧ (truthy ln = false → p'.lastname = p.lastname)
    ∧ (truthy em = true → p'.email = em)
    ∧ (truthy em = false → p'.email = p.email)
    ∧ (truthy fa = true → p'.favorite_anime = fa)
    ∧ (truthy fa = false → p'.favorite_anime = p.favorite_anime) := by
  unfold apply_updates at h
  rcases h1 : assign_name fn (fun n q => { q with firstname := n }) p with ⟨p1, e1⟩
  rw [h1] at h
  cases e1 with
  | some e => exact absurd (congrArg Prod.snd h) (by simp)
  | none =>
    dsimp only at h
    rcases h2 : assign_name ln (fun n q => { q with lastname := n }) p1 with ⟨p2, e2⟩
    rw [h2] at h
    cases e2 with
    | some e => exact absurd (congrArg Prod.snd h) (by simp)
    | none =>
      dsimp only at h
      have hfn := assign_name_none h1
      have hln := assign_name_none h2
      have e11 : p1.id = p.id := by
        rcases hfn with ⟨_, rfl⟩ | ⟨n, _, _, rfl⟩ <;> rfl
      have e12 : p1.lastname = p.lastname := by
        rcases hfn with ⟨_, rfl⟩ | ⟨n, _, _, rfl⟩ <;> rfl
      have e13 : p1.email = p.email := by
        rcases hfn with ⟨_, rfl⟩ | ⟨n, _, _, rfl⟩ <;> rfl
      have e14 : p1.favorite_anime = p.favorite_anime := by
        rcases hfn with ⟨_, rfl⟩ | ⟨n, _, _, rfl⟩ <;> rfl
      have e15 : truthy fn = true → p1.firstname = py_strip (fn.getD "") := by
        rcases hfn with ⟨hf, rfl⟩ | ⟨n, htr, hok, rfl⟩
        · intro ht; rw [ht] at hf; cases hf
        · intro _; exact (validate_name_ok hok).1
      have e16 : truthy fn = false → p1.firstname = p.firstname := by
        rcases hfn with ⟨hf, rfl⟩ | ⟨n, htr, hok, rfl⟩
        · intro _; rfl
        · intro hfalse; rw [htr] at hfalse; cases hfalse
      have e21 : p2.id = p1.id := by
        rcases hln with ⟨_, rfl⟩ | ⟨n, _, _, rfl⟩ <;> rfl
      have e22 : p2.firstname = p1.firstname := by
        rcases hln with ⟨_, rfl⟩ | ⟨n, _, _, rfl⟩ <;> rfl
      have e23 : p2.email = p1.email := by
        rcases hln with ⟨_, rfl⟩ | ⟨n, _, _, rfl⟩ <;> rfl
      have e24 : p2.favorite_anime = p1.favorite_anime := by
        rcases hln with ⟨_, rfl⟩ | ⟨n, _, _, rfl⟩ <;> rfl
      have e25 : truthy ln = true → p2.lastname = py_strip (ln.getD "") := by
        rcases hln with ⟨hf, rfl⟩ | ⟨n, htr, hok, rfl⟩
        · intro ht; rw [ht] at hf; cases hf
        · intro _; exact (validate_name_ok hok).1
      have e26 : truthy ln = false → p2.lastname = p1.lastname := by
        rcases hln with ⟨hf, rfl⟩ | ⟨n, htr, hok, rfl⟩
        · intro _; rfl
        · intro hfalse; rw [htr] at hfalse; cases hfalse
      cases hem : truthy em with
      | true =>
        rw [if_pos hem] at h
        cases hev : ev (em.getD "") with
        | true =>
          rw [if_pos hev] at h
          cases hfa : truthy fa with
          | true =>
            rw [if_pos hfa] at h
            have hp' := congrArg Prod.fst h
            dsimp only at hp'
            subst hp'
            refine ⟨?_, ?_, ?_, ?_, ?_, ?_, ?_, ?_, ?_⟩ <;> simp_all
          | false =>
            rw [if_neg (by simp [hfa])] at h
            have hp' := congrArg Prod.fst h
            dsimp only at hp'
            subst hp'
            refine ⟨?_, ?_, ?_, ?_, ?_, ?_, ?_, ?_, ?_⟩ <;> simp_all
        | false =>
          rw [if_neg (by simp [hev])] at h
          exact absurd (congrArg Prod.snd h) (by simp)
      | false =>
        rw [if_neg (by simp [hem])] at h
        cases hfa : truthy fa with
        | true =>
          rw [if_pos hfa] at h
          have hp' := congrArg Prod.fst h
          dsimp only at hp'
          subst hp'
          refine ⟨?_, ?_, ?_, ?_, ?_, ?_, ?_, ?_, ?_⟩ <;> simp_all
        | false =>
          rw [if_neg (by simp [hfa])] at h
          have hp' := congrArg Prod.fst h
          dsimp only at hp'
          subst hp'
          refine ⟨?_, ?_, ?_, ?_, ?_, ?_, ?_, ?_, ?_⟩ <;> simp_all

end RestApi

namespace RestApi

/-- Every error the in-place update sequence can raise is a validation
error (422), never a 404: name validation and the email check both raise
`invalid`. -/
theorem apply_updates_error {ev : String → Bool} {fn ln em fa : Option String}
    {p q : Person} {e : ApiError}
    (h : apply_updates ev fn ln em fa p = (q, some e)) :
    ∃ d, e = ApiError.invalid d := by
  unfold apply_updates at h
  rcases h1 : assign_name fn (fun n q => { q with firstname := n }) p with ⟨p1, e1⟩
  rw [h1] at h
  cases e1 with
  | some e0 =>
      dsimp only at h
      injection h with _ h2
      injection h2 with h3
      obtain ⟨_, _, hval⟩ := assign_name_some h1
      obtain ⟨hd, _⟩ := validate_name_error hval
      exact ⟨_, h3 ▸ hd⟩
  | none =>
      dsimp only at h
      rcases h2 : assign_name ln (fun n q => { q with lastname := n }) p1 with ⟨p2, e2⟩
      rw [h2] at h
      cases e2 with
      | some e0 =>
          dsimp only at h
          injection h with _ hx
          injection hx with h3
          obtain ⟨_, _, hval⟩ := assign_name_some h2
          obtain ⟨hd, _⟩ := validate_name_error hval
          exact ⟨_, h3 ▸ hd⟩
      | none =>
          dsimp only at h
          cases hem : truthy em with
          | true =>
            rw [if_pos hem] at h
            cases hev : ev (em.getD "") with
            | true =>
              rw [if_pos hev] at h
              cases hfa : truthy fa with
              | true =>
                rw [if_pos hfa] at h
                exact absurd (congrArg Prod.snd h) (by simp)
              | false =>
                rw [if_neg (by simp [hfa])] at h
                exact absurd (congrArg Prod.snd h) (by simp)
            | false =>
              rw [if_neg (by simp [hev])] at h
              injection h with _ hx
              injection hx with h3
              exact ⟨_, h3.symm⟩
          | false =>
            rw [if_neg (by simp [hem])] at h
            cases hfa : truthy fa with
            | true =>
              rw [if_pos hfa] at h
              exact absurd (congrArg Prod.snd h) (by simp)
            | false =>
              rw [if_neg (by simp [hfa])] at h
              exact absurd (congrArg Prod.snd h) (by simp)

/-- When only the firstname argument is truthy, a failing update leaves the
person exactly as it was: the failure happened on the very first
assignment. -/
theorem apply_updates_only_first {ev : String → Bool} {fn ln em fa : Option String}
    {p q : Person} {e : ApiError}
    (hln : truthy ln = false) (hem : truthy em = false) (hfa : truthy fa = false)
    (h : apply_updates ev fn ln em fa p = (q, some e)) : q = p := by
  unfold apply_updates at h
  rcases h1 : assign_name fn (fun n q => { q with firstname := n }) p with ⟨p1, e1⟩
  rw [h1] at h
  cases e1 with
  | some e0 =>
      dsimp only at h
      injection h with h1' _
      rw [← h1']
      exact (assign_name_some h1).1
  | none =>
      dsimp only at h
      rcases h2 : assign_name ln (fun n q => { q with lastname := n }) p1 with ⟨p2, e2⟩
      rw [h2] at h
      cases e2 with
      | some e0 =>
          obtain ⟨_, htr, _⟩ := assign_name_some h2
          rw [hln] at htr
          cases htr
      | none =>
          dsimp only at h
          rw [if_neg (by simp [hem]), if_neg (by simp [hfa])] at h
          exact absurd (congrArg Prod.snd h) (by simp)

end RestApi

namespace RestApi

/-- The scan acts at the *first* person whose id matches: earlier people are
kept verbatim and the tail after the match is never visited. -/
theorem update_loop_found (ev : String → Bool) (pid : Nat)
    (fn ln em fa : Option String) (l1 l2 : List Person) (p : Person)
    (h1 : ∀ q ∈ l1, q.id ≠ pid) (hp : p.id = pid) :
    update_loop ev pid fn ln em fa (l1 ++ p :: l2) =
      some ((match apply_updates ev fn ln em fa p with
             | (p', none) => (Except.ok p' : Except ApiError Person)
             | (_, some e) => Except.error e),
            l1 ++ (apply_updates ev fn ln em fa p).1 :: l2) := by
  induction l1 with
  | nil =>
    rw [List.nil_append, List.nil_append, update_loop]
    rw [if_pos (by simp [hp])]
    rcases ha : apply_updates ev fn ln em fa p with ⟨p', e?⟩
    cases e? <;> simp [ha]
  | cons q l ih =>
    rw [List.cons_append, List.cons_append, update_loop]
    rw [if_neg (by simp [h1 q (List.mem_cons_self q l)])]
    rw [ih (fun r hr => h1 r (List.mem_cons_of_mem q hr))]

/-- Conversely, any successful scan decomposes the list at the first
matching id. -/
theorem update_loop_some (ev : String → Bool) (pid : Nat)
    (fn ln em fa : Option String) :
    ∀ (l l' : List Person) (res : Except ApiError Person),
      update_loop ev pid fn ln em fa l = some (res, l') →
      ∃ l1 p l2 p' e?,
        l = l1 ++ p :: l2 ∧ (∀ q ∈ l1, q.id ≠ pid) ∧ p.id = pid
        ∧ apply_updates ev fn ln em fa p = (p', e?)
        ∧ l' = l1 ++ p' :: l2
        ∧ ((e? = none ∧ res = .ok p') ∨ ∃ e, e? = some e ∧ res = .error e) := by
  intro l
  induction l with
  | nil => intro l' res h; exact absurd h (by simp [update_loop])
  | cons q rest ih =>
    intro l' res h
    rw [update_loop] at h
    by_cases hq : q.id = pid
    · rw [if_pos (by simp [hq])] at h
      rcases ha : apply_updates ev fn ln em fa q with ⟨p', e?⟩
      rw [ha] at h
      cases e? with
      | none =>
        dsimp only at h
        injection h with hx
        injection hx with hres hl
        exact ⟨[], q, rest, p', none, by simp, by simp, hq, ha, by simp [← hl],
               Or.inl ⟨rfl, hres.symm⟩⟩
      | some e =>
        dsimp only at h
        injection h with hx
        injection hx with hres hl
        exact ⟨[], q, rest, p', some e, by simp, by simp, hq, ha, by simp [← hl],
               Or.inr ⟨e, rfl, hres.symm⟩⟩
    · rw [if_neg (by simp [hq])] at h
      rcases hrec : update_loop ev pid fn ln em fa rest with _ | ⟨res0, rest'⟩
      · rw [hrec] at h
        exact absurd h (by simp)
      · rw [hrec] at h
        dsimp only at h
        injection h with hx
        injection hx with hres hl
        rcases ih rest' res0 hrec with
          ⟨l1, p, l2, p', e?, hsplit, hfst, hpid, ha, hl', hr⟩
        refine ⟨q :: l1, p, l2, p', e?, by simp [hsplit], ?_, hpid, ha,
                by simp [← hl, hl'], hres ▸ hr⟩
        intro r hr0
        rcases List.mem_cons.mp hr0 with rfl | hmem
        · exact hq
        · exact hfst r hmem

end RestApi

namespace RestApi

/-- C5: for a successful update of the first person carrying the requested
id, every truthy supplied field is overwritten with its validated value
(names stored stripped), every field left `None` or supplied as the empty
string keeps its previous value, the id is never changed, all other
persons are kept verbatim, and the free-id set is unchanged. -/
theorem C5_update_fields (ev : String → Bool) (pid : Nat)
    (fn ln em fa : Option String) (s : Store) (l1 l2 : List Person) (p : Person)
    {p' : Person} {s' : Store}
    (hsplit : s.people = l1 ++ p :: l2)
    (hfirst : ∀ q ∈ l1, q.id ≠ pid)
    (hp : p.id = pid)
    (hok : update_person ev pid fn ln em fa s = (.ok p', s')) :
    p'.id = p.id
    ∧ (truthy fn = true → p'.firstname = py_strip (fn.getD ""))
    ∧ (truthy fn = false → p'.firstname = p.firstname)
    ∧ (truthy ln = true → p'.lastname = py_strip (ln.getD ""))
    ∧ (truthy ln = false → p'.lastname = p.lastname)
    ∧ (truthy em = true → p'.email = em)
    ∧ (truthy em = false → p'.email = p.email)
    ∧ (truthy fa = true → p'.favorite_anime = fa)
    ∧ (truthy fa = false → p'.favorite_anime = p.favorite_anime)
    ∧ s'.people = l1 ++ p' :: l2
    ∧ s'.free_ids = s.free_ids := by
  unfold update_person at hok
  rw [hsplit, update_loop_found ev pid fn ln em fa l1 l2 p hfirst hp] at hok
  rcases ha : apply_updates ev fn ln em fa p with ⟨q, e?⟩
  rw [ha] at hok
  cases e? with
  | some e =>
      dsimp only at hok
      injection hok with hres _
      exact Except.noConfusion hres
  | none =>
      dsimp only at hok
      injection hok with hres hs
      injection hres with hq
      subst hq
      subst hs
      obtain ⟨i1, i2, i3, i4, i5, i6, i7, i8, i9⟩ := apply_updates_ok ha
      exact ⟨i1, i2, i3, i4, i5, i6, i7, i8, i9, rfl, rfl⟩

/-- Seed person with id 2 updated with a favorite anime only. -/
def joe_updated : Person := { joe with favorite_anime := some "Naruto" }

/-- Witness for C5: updating seed person 2 with only `favorite_anime`
supplied leaves firstname, lastname and email unchanged and stores the
anime. -/
theorem C5_update_fields_witness :
    joe_updated.firstname = joe.firstname
    ∧ joe_updated.lastname = joe.lastname
    ∧ joe_updated.email = joe.email
    ∧ joe_updated.favorite_anime = some "Naruto" := by
  have h := C5_update_fields evTrue 2 none none none (some "Naruto") seed_store
    [john, matt] [] joe rfl (by decide) rfl rfl
  exact ⟨h.2.2.1 rfl, h.2.2.2.2.1 rfl, h.2.2.2.2.2.2.1 rfl,
         h.2.2.2.2.2.2.2.1 (by decide)⟩

end RestApi

namespace RestApi

/-- C3 counterexample: the update that supplies a valid firstname together
with an invalid lastname fails with a validation error, yet the target's
firstname has already been overwritten — the store is *not* left as it was
before the call. -/
theorem C3_counterexample :
    (update_person evTrue 0 (some "Jane") (some "B0b") none none seed_store).1
      = .error (.invalid "Name must contain only alphabetic characters")
    ∧ (update_person evTrue 0 (some "Jane") (some "B0b") none none seed_store).2
      ≠ seed_store
    ∧ (update_person evTrue 0 (some "Jane") (some "B0b") none none seed_store).2.people.map
        Person.firstname = ["Jane", "Matt", "Joe"] :=
  ⟨rfl, by decide, rfl⟩

/-- C3 (amended): failed creates and deletes leave the store unchanged, an
update that fails with not-found leaves the store unchanged, every update
(failing or not) preserves the free-id set and the list of live ids, and a
failing update whose lastname, email and favorite-anime arguments are all
falsy leaves the store unchanged — but an update that validly assigns an
earlier field before a later field fails keeps that earlier assignment
(see the counterexample). -/
theorem C3_failure_frame (ev : String → Bool) (pid : Nat) (cfn cln : String)
    (fn ln em fa : Option String) (s : Store) :
    (∀ e, (create_person ev cfn cln em fa s).1 = .error e →
        (create_person ev cfn cln em fa s).2 = s)
    ∧ (∀ e, (delete_person pid s).1 = .error e → (delete_person pid s).2 = s)
    ∧ ((update_person ev pid fn ln em fa s).1 = .error (.notFound "Person not found") →
        (update_person ev pid fn ln em fa s).2 = s)
    ∧ (update_person ev pid fn ln em fa s).2.free_ids = s.free_ids
    ∧ (update_person ev pid fn ln em fa s).2.people.map Person.id
        = s.people.map Person.id
    ∧ (truthy ln = false → truthy em = false → truthy fa = false →
        ∀ e, (update_person ev pid fn ln em fa s).1 = .error e →
          (update_person ev pid fn ln em fa s).2 = s) := by
  refine ⟨?_, ?_, ?_, ?_, ?_, ?_⟩
  · intro e
    unfold create_person
    rcases hmk : mk_person ev (get_next_id s) cfn cln em fa with e0 | p
    · intro _; rfl
    · intro hcontra
      exact Except.noConfusion hcontra
  · intro e
    unfold delete_person
    rcases hf : s.people.find? (fun p => p.id == pid) with _ | p0
    · rw [hf]
      intro _; rfl
    · rw [hf]
      intro hcontra
      exact Except.noConfusion hcontra
  · unfold update_person
    rcases hloop : update_loop ev pid fn ln em fa s.people with _ | ⟨res, l'⟩
    · intro _; rfl
    · dsimp only
      intro hres
      rcases update_loop_some ev pid fn ln em fa s.people l' res hloop with
        ⟨l1, p, l2, p', e?, _, _, _, ha, _, hr⟩
      rcases hr with ⟨_, rfl⟩ | ⟨e0, rfl, rfl⟩
      · exact Except.noConfusion hres
      · injection hres with hne
        obtain ⟨d, hd⟩ := apply_updates_error ha
        rw [hd] at hne
        exact ApiError.noConfusion hne
  · unfold update_person
    rcases hloop : update_loop ev pid fn ln em fa s.people with _ | ⟨res, l'⟩
    · rfl
    · rfl
  · unfold update_person
    rcases hloop : update_loop ev pid fn ln em fa s.people with _ | ⟨res, l'⟩
    · rfl
    · dsimp only
      rcases update_loop_some ev pid fn ln em fa s.people l' res hloop with
        ⟨l1, p, l2, p', e?, hsplit, _, _, ha, hl', _⟩
      have hid : p'.id = p.id := by
        have hthis := apply_updates_id ev fn ln em fa p
        rw [ha] at hthis
        exact hthis
      rw [hsplit, hl']
      simp [hid]
  · intro hln hem hfa e
    unfold update_person
    rcases hloop : update_loop ev pid fn ln em fa s.people with _ | ⟨res, l'⟩
    · intro _; rfl
    · dsimp only
      intro hres
      rcases update_loop_some ev pid fn ln em fa s.people l' res hloop with
        ⟨l1, p, l2, p', e?, hsplit, _, _, ha, hl', hr⟩
      rcases hr with ⟨_, rfl⟩ | ⟨e0, rfl, rfl⟩
      · exact Except.noConfusion hres
      · have hpp : p' = p := apply_updates_only_first hln hem hfa ha
        rw [hl', hpp, ← hsplit]

/-- Witness for C3: a failing single-field update (invalid firstname, all
other arguments absent) leaves the seed store exactly as before the call,
and a failing create also leaves it unchanged. -/
theorem C3_failure_frame_witness :
    (update_person evTrue 0 (some "B0b") none none none seed_store).2 = seed_store
    ∧ (create_person evTrue "J0hn" "Doe" none none seed_store).2 = seed_store := by
  have h := C3_failure_frame evTrue 0 "J0hn" "Doe" (some "B0b") none none none seed_store
  exact ⟨h.2.2.2.2.2 rfl rfl rfl
           (.invalid "Name must contain only alphabetic characters") rfl,
         h.1 (.invalid "Name must contain only alphabetic characters") rfl⟩

end RestApi

namespace RestApi

theorem find_first_id {pid : Nat} {l1 l2 : List Person} {p : Person}
    (hfirst : ∀ q ∈ l1, q.id ≠ pid) (hp : p.id = pid) :
    (l1 ++ p :: l2).find? (fun q => q.id == pid) = some p := by
  rw [List.find?_append]
  have h1 : l1.find? (fun q => q.id == pid) = none := by
    rw [List.find?_eq_none]
    intro q hq
    simp [hfirst q hq]
  rw [h1, List.find?_cons, hp]
  simp

/-- C10: `get`, `update` and `delete` all scan the live collection in
insertion order and act on the *first* person whose id matches: with the
collection split as `l1 ++ p :: l2` where no one in `l1` carries the id and
`p` does, `get` returns `p`, `delete` removes exactly `p` (freeing its id),
and `update` rewrites exactly `p` — any later person with the same id
(possible through the duplicate-id bug) is untouched. -/
theorem C10_first_match (ev : String → Bool) (pid : Nat)
    (fn ln em fa : Option String) (s : Store) (l1 l2 : List Person) (p : Person)
    (hsplit : s.people = l1 ++ p :: l2)
    (hfirst : ∀ q ∈ l1, q.id ≠ pid)
    (hp : p.id = pid) :
    get_person pid s = .ok p
    ∧ delete_person pid s
        = (.ok p, { people := l1 ++ l2, free_ids := insert p.id s.free_ids })
    ∧ (update_person ev pid fn ln em fa s).2.people
        = l1 ++ (apply_updates ev fn ln em fa p).1 :: l2 := by
  have hfind : s.people.find? (fun q => q.id == pid) = some p := by
    rw [hsplit]; exact find_first_id hfirst hp
  have hnotmem : p ∉ l1 := fun hmem => hfirst p hmem hp
  refine ⟨?_, ?_, ?_⟩
  · unfold get_person
    rw [hfind]
  · unfold delete_person
    rw [hfind]
    dsimp only
    have herase : s.people.erase p = l1 ++ l2 := by
      rw [hsplit, List.erase_append_right _ hnotmem, List.erase_cons_head]
    rw [herase]
  · unfold update_person
    rw [hsplit, update_loop_found ev pid fn ln em fa l1 l2 p hfirst hp]

/-- Two distinct people that both carry id 1, as the duplicate-id bug can
produce. -/
def dupA : Person := { id := 1, firstname := "Aa", lastname := "Bb", email := none }

/-- The later person with the same id. -/
def dupB : Person := { id := 1, firstname := "Cc", lastname := "Dd", email := none }

/-- A store holding two live people with the same id. -/
def dup_store : Store := { people := [dupA, dupB], free_ids := ∅ }

/-- Witness for C10 on a store with a duplicated id: `get` returns the
earlier person and `delete` removes the earlier person, leaving the later
duplicate in place. -/
theorem C10_first_match_witness :
    get_person 1 dup_store = .ok dupA
    ∧ delete_person 1 dup_store
        = (.ok dupA, { people := [dupB], free_ids := insert 1 ∅ }) := by
  have h := C10_first_match evTrue 1 none none none none dup_store [] [dupB] dupA
    rfl (by simp) rfl
  exact ⟨h.1, h.2.1⟩

end RestApi

namespace RestApi

theorem py_isalpha_false_iff (x : String) :
    py_isalpha x = false ↔ (x = "" ∨ x.data.any (fun c => !c.isAlpha) = true) := by
  unfold py_isalpha
  rcases x with ⟨cs⟩
  cases cs with
  | nil =>
    constructor
    · intro _
      exact Or.inl rfl
    · intro _
      rfl
  | cons c cs =>
    constructor
    · intro h
      right
      simp only [List.isEmpty_cons, Bool.not_false, Bool.true_and] at h
      have hnall : ¬ ((c :: cs).all Char.isAlpha = true) := by simp [h]
      rw [List.all_eq_true] at hnall
      push_neg at hnall
      rcases hnall with ⟨a, ha, hna⟩
      rw [List.any_eq_true]
      exact ⟨a, ha, by simp [hna]⟩
    · intro h
      rcases h with h | h
      · have h2 : c :: cs = ("" : String).data := congrArg String.data h
        exact List.noConfusion h2
      · simp only [List.isEmpty_cons, Bool.not_false, Bool.true_and]
        rcases List.any_eq_true.mp h with ⟨a, ha, hna⟩
        apply Bool.eq_false_iff.mpr
        intro hall
        rw [List.all_eq_true] at hall
        rw [hall a ha] at hna
        exact Bool.noConfusion hna

theorem create_person_fst (ev : String → Bool) (fn ln : String)
    (em fa : Option String) (s : Store) :
    (create_person ev fn ln em fa s).1 = mk_person ev (get_next_id s) fn ln em fa := by
  unfold create_person
  rcases hmk : mk_person ev (get_next_id s) fn ln em fa with e | p <;> simp

theorem mk_person_error_iff (ev : String → Bool) (i : Nat) (fn ln : String)
    (em fa : Option String) :
    (∃ e, mk_person ev i fn ln em fa = .error e) ↔
      (py_isalpha (py_strip fn) = false ∨ py_isalpha (py_strip ln) = false
       ∨ ∃ v, em = some v ∧ ev v = false) := by
  unfold mk_person
  rcases hfn : validate_name fn with efn | vfn
  · have hbad := validate_name_error hfn
    simp [hbad.2]
  · have hok1 := validate_name_ok hfn
    have h1 : py_isalpha (py_strip fn) = true := hok1.1 ▸ hok1.2
    rcases hln : validate_name ln with eln | vln
    · have hbad := validate_name_error hln
      simp [h1, hbad.2]
    · have hok2 := validate_name_ok hln
      have h2 : py_isalpha (py_strip ln) = true := hok2.1 ▸ hok2.2
      cases em with
      | none => simp [h1, h2]
      | some v =>
        cases hv : ev v with
        | true => simp [h1, h2, hv]
        | false => simp [h1, h2, hv]

/-- C6: `create_person` fails if and only if a name is empty after
stripping surrounding whitespace or contains a non-alphabetic character,
or a supplied email is rejected by the email checker; and a failing create
leaves the store exactly as it was (no person is added). -/
theorem C6_create_validation (ev : String → Bool) (fn ln : String)
    (em fa : Option String) (s : Store) :
    ((∃ e, (create_person ev fn ln em fa s).1 = .error e) ↔
      (py_strip fn = "" ∨ (py_strip fn).data.any (fun c => !c.isAlpha) = true
       ∨ py_strip ln = "" ∨ (py_strip ln).data.any (fun c => !c.isAlpha) = true
       ∨ ∃ v, em = some v ∧ ev v = false))
    ∧ (∀ e, (create_person ev fn ln em fa s).1 = .error e →
        (create_person ev fn ln em fa s).2 = s) := by
  constructor
  · rw [create_person_fst, mk_person_error_iff, py_isalpha_false_iff,
        py_isalpha_false_iff]
    tauto
  · intro e
    unfold create_person
    rcases hmk : mk_person ev (get_next_id s) fn ln em fa with e0 | p
    · intro _
      rfl
    · intro hcontra
      exact Except.noConfusion hcontra

/-- Witness for C6: creating a person with firstname `"J0hn"` fails with a
validation error and the seed store still holds its 3 people. -/
theorem C6_create_validation_witness :
    (∃ e, (create_person evTrue "J0hn" "Doe" none none seed_store).1 = .error e)
    ∧ (create_person evTrue "J0hn" "Doe" none none seed_store).2 = seed_store
    ∧ seed_store.people.length = 3 := by
  have h := C6_create_validation evTrue "J0hn" "Doe" none none seed_store
  refine ⟨h.1.mpr (by right; left; decide), ?_, rfl⟩
  exact h.2 (.invalid "Name must contain only alphabetic characters") rfl

end RestApi

namespace RestApi

/-- Spec-side conjunction of the three list filters: one predicate holding
exactly when a person passes every supplied criterion. -/
def matches_filters (fa? : Option String) (he hfa : Option Bool) (p : Person) : Bool :=
  ((match fa? with
    | some v => if v.isEmpty = true then true else anime_filter_pred v p
    | none => true)
   && (match he with
       | some true => email_truthy p
       | some false => !email_truthy p
       | none => true))
  && (match hfa with
      | some true => anime_truthy p
      | some false => !anime_truthy p
      | none => true)

/-- C7: the list endpoint returns exactly the live people, in insertion
order, that satisfy the conjunction of all supplied filters; in particular
`has_email=true` returns exactly those whose email is non-null and
non-empty, and `has_email=false` their exact complement. -/
theorem C7_filter_conjunction (fa? : Option String) (he hfa : Option Bool)
    (s : Store) :
    get_people fa? he hfa s = s.people.filter (matches_filters fa? he hfa)
    ∧ get_people none (some true) none s = s.people.filter email_truthy
    ∧ get_people none (some false) none s
        = s.people.filter (fun p => !email_truthy p) := by
  refine ⟨?_, ?_, ?_⟩
  · unfold get_people matches_filters
    rcases fa? with _ | v <;> rcases he with _ | b1 <;> rcases hfa with _ | b2 <;>
      (try cases b1) <;> (try cases b2) <;>
      (try by_cases hv : v.isEmpty = true) <;>
      simp [truthy, List.filter_filter, Bool.and_comm, Bool.and_left_comm,
            Bool.and_assoc, *]
  · unfold get_people
    simp [truthy]
  · unfold get_people
    simp [truthy]

theorem py_lower_empty_iff (v : String) : py_lower v = "" ↔ v = "" := by
  unfold py_lower
  rcases v with ⟨cs⟩
  cases cs with
  | nil => simp
  | cons c cs =>
    constructor
    · intro h
      exact absurd (congrArg String.data h) (by simp)
    · intro h
      exact absurd (congrArg String.data h) (by simp)

theorem string_isEmpty_false {v : String} (hv : v ≠ "") : v.isEmpty = false := by
  cases hb : v.isEmpty
  · rfl
  · exact absurd ((String.isEmpty_iff v).mp hb) hv

/-- The predicate the spec states for the `favorite_anime` filter:
a present favorite anime equal to the query ignoring letter case. -/
def anime_matches_ci (v : String) (p : Person) : Bool :=
  match p.favorite_anime with
  | none => false
  | some a => py_lower a == py_lower v

/-- C8: with a non-empty filter string, the list endpoint keeps exactly the
people whose favorite anime is present and equal to the query ignoring
letter case; people without a favorite anime are excluded. -/
theorem C8_anime_ci_filter (s : Store) (v : String) (hv : v ≠ "") :
    get_people (some v) none none s = s.people.filter (anime_matches_ci v) := by
  unfold get_people
  dsimp only
  rw [if_pos (show truthy (some v) = true by
        show (!v.isEmpty) = true
        rw [string_isEmpty_false hv]
        rfl)]
  apply List.filter_congr
  intro p _
  unfold anime_filter_pred anime_matches_ci truthy
  cases hfa : p.favorite_anime with
  | none => rfl
  | some a =>
    show (!a.isEmpty && (py_lower v == py_lower a)) = (py_lower a == py_lower v)
    by_cases ha : a = ""
    · subst ha
      have h2 : py_lower "" ≠ py_lower v := by
        intro hx
        exact hv ((py_lower_empty_iff v).mp hx.symm)
      have h4 : (py_lower "" == py_lower v) = false := beq_eq_false_iff_ne.mpr h2
      have h5 : ("" : String).isEmpty = true := rfl
      simp [h4, h5]
    · rw [string_isEmpty_false ha]
      simp only [Bool.not_false, Bool.true_and]
      rw [Bool.eq_iff_iff, beq_iff_eq, beq_iff_eq]
      exact eq_comm

/-- One person whose stored favorite anime is lowercase `"naruto"`. -/
def naruto_fan : Person :=
  { id := 7, firstname := "Ren", lastname := "Kai", email := none
  , favorite_anime := some "naruto" }

/-- A one-person store for the case-insensitivity witness. -/
def naruto_store : Store := { people := [naruto_fan], free_ids := ∅ }

/-- Witness for C8: filtering by `"Naruto"` matches the person whose stored
value is `"naruto"`. -/
theorem C8_anime_ci_filter_witness :
    get_people (some "Naruto") none none naruto_store
      = naruto_store.people.filter (anime_matches_ci "Naruto")
    ∧ get_people (some "Naruto") none none naruto_store = [naruto_fan] := by
  have h := C8_anime_ci_filter naruto_store "Naruto" (by decide)
  exact ⟨h, by rw [h]; rfl⟩

end RestApi

namespace RestApi

theorem char_isAlpha_not_whitespace {c : Char} (h : c.isAlpha = true) :
    c.isWhitespace = false := by
  by_contra hw
  rw [Bool.not_eq_false] at hw
  have hcases : c = ' ' ∨ c = '\t' ∨ c = '\r' ∨ c = '\n' := by
    simpa [Char.isWhitespace, or_assoc] using hw
  rcases hcases with rfl | rfl | rfl | rfl <;> exact absurd h (by decide)

theorem mk_person_ok {ev : String → Bool} {i : Nat} {fn ln : String}
    {em fa : Option String} {p : Person}
    (h : mk_person ev i fn ln em fa = .ok p) :
    p.id = i ∧ p.firstname = py_strip fn ∧ p.lastname = py_strip ln
    ∧ p.favorite_anime = fa
    ∧ py_isalpha p.firstname = true ∧ py_isalpha p.lastname = true := by
  unfold mk_person at h
  rcases hfn : validate_name fn with efn | vfn
  · rw [hfn] at h
    exact Except.noConfusion h
  · rw [hfn] at h
    obtain ⟨hv1, ha1⟩ := validate_name_ok hfn
    rcases hln : validate_name ln with eln | vln
    · rw [hln] at h
      exact Except.noConfusion h
    · rw [hln] at h
      obtain ⟨hv2, ha2⟩ := validate_name_ok hln
      cases em with
      | none =>
        dsimp only at h
        injection h with hp
        subst hp
        exact ⟨rfl, hv1, hv2, rfl, hv1 ▸ ha1, hv2 ▸ ha2⟩
      | some v =>
        dsimp only at h
        cases hv : ev v with
        | true =>
          rw [if_pos hv] at h
          injection h with hp
          subst hp
          exact ⟨rfl, hv1, hv2, rfl, hv1 ▸ ha1, hv2 ▸ ha2⟩
        | false =>
          rw [if_neg (by simp [hv])] at h
          exact Except.noConfusion h

theorem py_isalpha_no_whitespace {x : String} (h : py_isalpha x = true) :
    ∀ c ∈ x.data, c.isWhitespace = false := by
  intro c hc
  unfold py_isalpha at h
  obtain ⟨-, hall⟩ := Bool.and_eq_true_iff.mp h
  rw [List.all_eq_true] at hall
  exact char_isAlpha_not_whitespace (hall c hc)

/-- C9: a firstname or lastname value accepted by the validator — the same
validator that runs on creation and on every update assignment — is stored
as the input with surrounding whitespace stripped, and the stored value
contains no whitespace character at all (so it neither begins nor ends
with whitespace).  The second conjunct instantiates this for the two names
of a successfully created person, the third for any in-place field
assignment of `update_person`. -/
theorem C9_names_stripped (ev : String → Bool) (name out : String)
    (cfn cln : String) (em fa : Option String) (s : Store)
    (v : Option String) (set : String → Person → Person) (q : Person)
    {p : Person} {s' : Store} :
    (validate_name name = .ok out →
        out = py_strip name ∧ ∀ c ∈ out.data, c.isWhitespace = false)
    ∧ (create_person ev cfn cln em fa s = (.ok p, s') →
        p.firstname = py_strip cfn ∧ p.lastname = py_strip cln
        ∧ (∀ c ∈ p.firstname.data, c.isWhitespace = false)
        ∧ (∀ c ∈ p.lastname.data, c.isWhitespace = false))
    ∧ (∀ q' e?, assign_name v set q = (q', e?) →
        q' = q ∨ ∃ n, validate_name (v.getD "") = .ok n ∧ q' = set n q) := by
  refine ⟨?_, ?_, ?_⟩
  · intro h
    obtain ⟨ho, ha⟩ := validate_name_ok h
    exact ⟨ho, py_isalpha_no_whitespace ha⟩
  · intro h
    unfold create_person at h
    rcases hmk : mk_person ev (get_next_id s) cfn cln em fa with e | p0
    · rw [hmk] at h
      exact Prod.noConfusion h (fun h1 _ => Except.noConfusion h1)
    · rw [hmk] at h
      dsimp only at h
      have hp0 : p0 = p := by
        have := congrArg Prod.fst h
        dsimp only at this
        injection this with hx
      subst hp0
      obtain ⟨-, h1, h2, -, h5, h6⟩ := mk_person_ok hmk
      exact ⟨h1, h2, py_isalpha_no_whitespace h5, py_isalpha_no_whitespace h6⟩
  · intro q' e? h
    rcases hq : assign_name v set q with ⟨q0, e0⟩
    rw [hq] at h
    injection h with h1 h2
    cases e0 with
    | none =>
      rcases assign_name_none hq with ⟨-, rfl⟩ | ⟨n, -, hok, rfl⟩
      · exact Or.inl h1.symm
      · exact Or.inr ⟨n, hok, h1.symm⟩
    | some e =>
      exact Or.inl (h1.symm.trans (assign_name_some hq).1)

/-- Witness for C9: creating a person with `" John "` / `" Doe "` stores the
stripped names. -/
theorem C9_names_stripped_witness :
    ({ id := 3, firstname := "John", lastname := "Doe", email := none
     , favorite_anime := none } : Person).firstname = py_strip " John "
    ∧ ({ id := 3, firstname := "John", lastname := "Doe", email := none
       , favorite_anime := none } : Person).lastname = py_strip " Doe " := by
  have h := (C9_names_stripped evTrue "x" "x" " John " " Doe " none none seed_store
    none (fun _ q => q) dupA).2.1 rfl
  exact ⟨h.1, h.2.1⟩

end RestApi
